import Mathlib

/-!
Verification development for the GAIL discriminator model
(`mlagents/trainers/components/reward_signals/gail/model.py`).

The TensorFlow graph is shallowly embedded over the real numbers:
tensors of shape `[batch, d]` become `List` of per-sample values (or a
single per-sample value where only one sample matters), float scalars
become `ℝ`, and the graph-construction functions of `GAILModel` become
pure Lean functions of the graph's inputs and parameters.  TensorFlow
variable reuse (`reuse=True`) is embedded by passing the same explicit
parameter record to both encoder invocations; random tensors
(`tf.random_normal`, `tf.random_uniform`) become explicit inputs; the
automatic differentiation operator `tf.gradients` is abstracted as an
explicit gradient-oracle argument.
-/

namespace GAIL

noncomputable section

/-- The module-level stabilization constant `EPSILON = 1e-7`. -/
def EPSILON : ℝ := 1e-7

/-- The beta-controller step size `self.alpha = 0.0005`. -/
def alpha : ℝ := 0.0005

/-- The target information budget `I_c`, `self.mutual_information = 0.5`. -/
def mutual_information : ℝ := 0.5

/-- From `make_beta`: the value assigned to `beta` by the `update_beta` op,
`tf.maximum(beta + alpha * (kl_div_input - mutual_information), EPSILON)`. -/
def update_beta (beta kl_div_input : ℝ) : ℝ :=
  max (beta + alpha * (kl_div_input - mutual_information)) EPSILON

/-- Batch mean, `tf.reduce_mean` over a batch embedded as a list. -/
def mean (l : List ℝ) : ℝ := l.sum / l.length

/-- One-hot encoding `tf.one_hot(index, depth)`: a length-`depth` vector with a `1` at
position `index` and `0` elsewhere (all zeros when `index ≥ depth`). -/
def one_hot (index depth : ℕ) : List ℝ :=
  (List.range depth).map fun j => if j = index then 1 else 0

/-- The expert-action placeholder content handed to `make_inputs`: either a
continuous action vector or a list of raw per-branch discrete indices. -/
inductive ActionInput where
  | continuous (action_in_expert : List ℝ)
  | discrete (action_in_expert : List ℕ)

/-- From `make_inputs`: the `expert_action` node.  For a continuous action space
it is `tf.identity(action_in_expert)`; for a discrete one it is the
concatenation, in branch order, of `tf.one_hot(action_in_expert[:, i],
act_size[i])` over the branches `i` of the external policy's `act_size`. -/
def expert_action (act_size : List ℕ) : ActionInput → List ℝ
  | .continuous v => v
  | .discrete idxs => (List.zipWith one_hot idxs act_size).flatten

/-- The construction-time configuration flags of `GAILModel.__init__`. -/
structure GAILConfig where
  use_actions : Bool
  use_vail : Bool

/-- The discriminator's learnable parameters: the two hidden dense layers
`gail_d_hidden_1/2`, the latent projection `gail_z_mean`, the learned scale
vector `gail_sigma_vail`, and the output layer `gail_d_estimate` (whose
kernel `We` is dotted with the latent code under VAIL and with `hidden_2`
otherwise; lists are unsized so one field serves both shapes). -/
structure EncoderParams where
  W1 : List (List ℝ)
  b1 : List ℝ
  W2 : List (List ℝ)
  b2 : List ℝ
  Wz : List (List ℝ)
  bz : List ℝ
  z_sigma : List ℝ
  We : List ℝ
  be : ℝ

/-- Dot product of a weight row with an input vector. -/
def dotList (w x : List ℝ) : ℝ := (List.zipWith (fun a b => a * b) w x).sum

/-- Dense layer `tf.layers.dense`: each output unit applies the activation to the
affine combination of its weight row, the input and its bias. -/
def denseLayer (W : List (List ℝ)) (b : List ℝ) (act : ℝ → ℝ) (x : List ℝ) :
    List ℝ :=
  List.zipWith (fun row bi => act (dotList row x + bi)) W b

/-- Modelled from the spec: the logistic sigmoid `tf.nn.sigmoid` used by the
output layer (the host framework's definition is not part of this source). -/
def sigmoid (x : ℝ) : ℝ := 1 / (1 + Real.exp (-x))

/-- Modelled from the spec: `LearningModel.swish`, the "swish-like smooth
activation" `x * sigmoid(x)` of the hidden layers (defined in
`mlagents.trainers.models`, outside this source file). -/
def swish (x : ℝ) : ℝ := x * sigmoid x

/-- The node `self.z = z_mean + self.z_sigma * self.noise * self.use_noise`:
the sampled latent code (elementwise over the latent dimensions; the
tensors share the shape of `z_mean` by construction). -/
def sample_z (z_mean z_sigma noise : List ℝ) (use_noise : ℝ) : List ℝ :=
  z_mean.mapIdx fun i m => m + z_sigma.getD i 0 * noise.getD i 0 * use_noise

/-- The body of `create_encoder` from the concatenated input onward:
`gail_d_hidden_1` → `gail_d_hidden_2` → (under VAIL) the latent mean
`gail_z_mean` and sampled code `z` → `gail_d_estimate` with sigmoid.
Returns `(estimate, z_mean)`. -/
def encoder_on_input (cfg : GAILConfig) (p : EncoderParams)
    (concat_input : List ℝ) (noise : List ℝ) (use_noise : ℝ) :
    ℝ × Option (List ℝ) :=
  let hidden_1 := denseLayer p.W1 p.b1 swish concat_input
  let hidden_2 := denseLayer p.W2 p.b2 swish hidden_1
  if cfg.use_vail then
    let z_mean := denseLayer p.Wz p.bz id hidden_2
    let z := sample_z z_mean p.z_sigma noise use_noise
    (sigmoid (dotList p.We z + p.be), some z_mean)
  else
    (sigmoid (dotList p.We hidden_2 + p.be), none)

/-- The builder `create_encoder(state_in, action_in, done_in, reuse)`.  The input is the
concatenation `[state_in, action_in, done_in]` when `use_actions` holds and
`state_in` alone otherwise; returns `(estimate, z_mean, concat_input)`.
TensorFlow's `reuse` flag selects variable sharing, which this embedding
expresses by the explicit parameter record `p`; the flag itself has no
effect on the computed value, so it is carried but unused. -/
def create_encoder (cfg : GAILConfig) (p : EncoderParams)
    (state_in action_in done_in : List ℝ) (noise : List ℝ) (use_noise : ℝ)
    (reuse : Bool) : ℝ × Option (List ℝ) × List ℝ :=
  let concat_input :=
    if cfg.use_actions then state_in ++ action_in ++ done_in else state_in
  let r := encoder_on_input cfg p concat_input noise use_noise
  (r.1, r.2, concat_input)

/-- One sample's worth of the input placeholders of one stream. -/
structure EncoderIn where
  state : List ℝ
  action : List ℝ
  done : List ℝ

/-- The per-sample nodes produced by `create_network`. -/
structure NetworkOut where
  expert_estimate : ℝ
  policy_estimate : ℝ
  z_mean_expert : Option (List ℝ)
  z_mean_policy : Option (List ℝ)
  intrinsic_reward : ℝ

/-- The node `self.intrinsic_reward = -tf.log(1.0 - self.discriminator_score + EPSILON)`
as a function of one policy-stream estimate. -/
def intrinsic_reward (policy_estimate : ℝ) : ℝ :=
  -Real.log (1 - policy_estimate + EPSILON)

/-- The builder `create_network`: the expert pass (`reuse=False`) and the policy pass
(`reuse=True`) of `create_encoder` over the same parameter record `p` —
the embedding of TensorFlow variable sharing — followed by the intrinsic
reward node.  Each pass of `tf.random_normal` draws its own noise, hence
the two noise arguments. -/
def create_network (cfg : GAILConfig) (p : EncoderParams)
    (expert_in policy_in : EncoderIn) (noise_e noise_p : List ℝ)
    (use_noise : ℝ) : NetworkOut :=
  let e := create_encoder cfg p expert_in.state expert_in.action
    expert_in.done noise_e use_noise false
  let q := create_encoder cfg p policy_in.state policy_in.action
    policy_in.done noise_p use_noise true
  { expert_estimate := e.1
    policy_estimate := q.1
    z_mean_expert := e.2.1
    z_mean_policy := q.2.1
    intrinsic_reward := intrinsic_reward q.1 }

/-- Interpolation `alpha * _expert_in + (1 - alpha) * _policy_in` elementwise, where
`alpha = tf.random_uniform(tf.shape(_expert_in))` supplies one independent
weight per tensor element (full tensor shape, not one per sample). -/
def interp (alpha expert policy : List ℝ) : List ℝ :=
  (alpha.zip (expert.zip policy)).map fun aep =>
    aep.1 * aep.2.1 + (1 - aep.1) * aep.2.2

/-- One sample's worth of the three aligned expert/policy input pairs of
`create_gradient_magnitude`, together with the drawn `tf.random_uniform`
weights (one per element of each tensor). -/
structure GPSample where
  encoded_expert : List ℝ
  expert_action : List ℝ
  done_expert : List ℝ
  encoded_policy : List ℝ
  policy_action : List ℝ
  done_policy : List ℝ
  alpha_state : List ℝ
  alpha_action : List ℝ
  alpha_done : List ℝ

/-- The builder `create_gradient_magnitude`: interpolate each of the three input pairs
elementwise with its drawn weights, run the triple through the
weight-shared encoder (`reuse=True`, embedded as the same parameter record
`p`), take `tf.gradients` of the estimate with respect to the raw
concatenated input — `tf.gradients` is abstracted as the oracle
`tf_gradients`, mapping a scalar-valued function and a point to the
gradient vector there — and return
`tf.reduce_mean(tf.pow(tf.sqrt(tf.reduce_sum(grad ** 2, axis=-1) + EPSILON) - 1, 2))`. -/
def create_gradient_magnitude (cfg : GAILConfig) (p : EncoderParams)
    (tf_gradients : (List ℝ → ℝ) → List ℝ → List ℝ)
    (noise : List ℝ) (use_noise : ℝ) (batch : List GPSample) : ℝ :=
  mean (batch.map fun s =>
    let i0 := interp s.alpha_state s.encoded_expert s.encoded_policy
    let i1 := interp s.alpha_action s.expert_action s.policy_action
    let i2 := interp s.alpha_done s.done_expert s.done_policy
    let r := create_encoder cfg p i0 i1 i2 noise use_noise true
    let grad := tf_gradients
      (fun x => (encoder_on_input cfg p x noise use_noise).1) r.2.2
    let safe_norm := Real.sqrt ((grad.map fun g => g ^ 2).sum + EPSILON)
    (safe_norm - 1) ^ 2)

/-- The node `self.discriminator_loss = -tf.reduce_mean(tf.log(expert_estimate +
EPSILON) + tf.log(1.0 - policy_estimate + EPSILON))` over the batch of
estimate pairs. -/
def discriminator_loss (expert_estimates policy_estimates : List ℝ) : ℝ :=
  -(mean (List.zipWith
    (fun e q => Real.log (e + EPSILON) + Real.log (1 - q + EPSILON))
    expert_estimates policy_estimates))

/-- The node `self.kl_loss = tf.reduce_mean(-tf.reduce_sum(1 + z_log_sigma_sq
- 0.5 * square(z_mean_expert) - 0.5 * square(z_mean_policy)
- exp(z_log_sigma_sq), 1))`: per sample, the negated sum over latent
dimensions of the bracket combining both streams' latent means against the
shared `z_log_sigma_sq`, then batch-averaged. -/
def kl_loss (z_log_sigma_sq : List ℝ) (z_mean_expert z_mean_policy :
    List (List ℝ)) : ℝ :=
  mean ((z_mean_expert.zip z_mean_policy).map fun mp =>
    -(((z_log_sigma_sq.zip (mp.1.zip mp.2)).map fun t =>
        1 + t.1 - 0.5 * t.2.1 ^ 2 - 0.5 * t.2.2 ^ 2 - Real.exp t.1).sum))

/-- The builder `create_loss`: `discriminator_loss` from the estimate batches; under
VAIL the loss is `beta * (kl_loss - mutual_information) +
discriminator_loss`, otherwise the discriminator loss alone; when
`gradient_penalty_weight > 0.0` the weighted gradient magnitude (already
built as a scalar node, passed here as `grad_mag`) is added. -/
def create_loss (use_vail : Bool) (gradient_penalty_weight : ℝ)
    (beta kl grad_mag : ℝ) (expert_estimates policy_estimates : List ℝ) :
    ℝ :=
  let dl := discriminator_loss expert_estimates policy_estimates
  let l := if use_vail then beta * (kl - mutual_information) + dl else dl
  if 0 < gradient_penalty_weight
  then l + gradient_penalty_weight * grad_mag
  else l

/-- The persistent mutable state of the model: the gradient-tracked
discriminator parameters (the trainable variables the Adam step
`optimizer.minimize(self.loss)` updates) and the scalar variable
`gail_beta`, created with `trainable=False` and hence outside the
optimizer's variable set. -/
structure GailState where
  disc_params : EncoderParams
  beta : ℝ

/-- The op `self.update_batch = optimizer.minimize(self.loss)`: one optimizer
step, abstracted as an arbitrary update `opt_step` of the trainable
parameter record; `gail_beta` is non-trainable, so it is not touched. -/
def update_batch (opt_step : EncoderParams → EncoderParams)
    (s : GailState) : GailState :=
  { s with disc_params := opt_step s.disc_params }

/-- The op `self.update_beta = tf.assign(self.beta, new_beta)`: the separate
beta-controller op, assigning `update_beta` of the fed KL scalar. -/
def run_update_beta (kl_div_input : ℝ) (s : GailState) : GailState :=
  { s with beta := update_beta s.beta kl_div_input }

/-- Helper: `mapIdx` with a pointwise-identity function is the identity. -/
theorem mapIdx_id_of_eq {α : Type} (g : ℕ → α → α)
    (hg : ∀ i x, g i x = x) : ∀ l : List α, l.mapIdx g = l := by
  intro l
  induction l generalizing g with
  | nil => rfl
  | cons a t ih =>
      rw [List.mapIdx_cons, hg, ih (fun i => g (i + 1)) (fun i x => hg _ x)]

/-- Helper: gating the latent noise with `use_noise = 0` leaves `z_mean`. -/
theorem sample_z_zero (z_mean z_sigma noise : List ℝ) :
    sample_z z_mean z_sigma noise 0 = z_mean := by
  unfold sample_z
  exact mapIdx_id_of_eq _ (fun i x => by ring) z_mean

/-- C1: the beta-update op replaces `beta` by
`max(beta + 0.0005 * (kl - 0.5), 1e-7)`; for every prior `beta` and every
`kl` (however negative) the updated value is at least `1e-7`; and for
`beta = 1.0`, `kl = 1.0` the updated value is exactly `1.00025`. -/
theorem beta_update_rule :
    (∀ beta kl : ℝ,
        update_beta beta kl = max (beta + 0.0005 * (kl - 0.5)) 1e-7
      ∧ (1e-7 : ℝ) ≤ update_beta beta kl)
    ∧ update_beta 1 1 = 1.00025 := by
  refine ⟨fun beta kl => ⟨rfl, le_max_right _ _⟩, ?_⟩
  show max ((1 : ℝ) + alpha * (1 - mutual_information)) EPSILON = 1.00025
  rw [alpha, mutual_information, EPSILON, max_eq_left (by norm_num)]
  norm_num

/-- C5: in `create_network`, both encoder invocations run over one and the
same parameter record — the embedding of `reuse=True` weight sharing — so
the `reuse` flag does not change the computed value, and the expert and
policy passes produce numerically identical estimates whenever they are
given identical inputs (and identical latent-noise draws). -/
theorem weight_sharing_invariant :
    ∀ (cfg : GAILConfig) (p : EncoderParams)
      (s a d noise : List ℝ) (un : ℝ),
      create_encoder cfg p s a d noise un false
        = create_encoder cfg p s a d noise un true
      ∧ ∀ i : EncoderIn,
          (create_network cfg p i i noise noise un).expert_estimate
            = (create_network cfg p i i noise noise un).policy_estimate :=
  fun _ _ _ _ _ _ _ => ⟨rfl, fun _ => rfl⟩

/-- C8: for the discrete action space with branch cardinalities `[3, 2]`
the raw expert action `[1, 0]` is ingested as the concatenation of the
per-branch one-hot encodings, `[0, 1, 0, 1, 0]`; for a continuous action
space the expert action passes through unchanged. -/
theorem expert_action_encoding :
    expert_action [3, 2] (.discrete [1, 0]) = [0, 1, 0, 1, 0]
    ∧ ∀ (act_size : List ℕ) (v : List ℝ),
        expert_action act_size (.continuous v) = v := by
  refine ⟨?_, fun _ _ => rfl⟩
  simp [expert_action, one_hot, List.range_succ]

/-- C9: the optimizer step mutates only the gradient-tracked discriminator
parameters and never `beta` (created with `trainable=False`); `beta`
changes only through the dedicated `update_beta` assignment, which in turn
leaves the discriminator parameters untouched. -/
theorem optimizer_preserves_beta :
    ∀ (opt_step : EncoderParams → EncoderParams) (s : GailState) (kl : ℝ),
      (update_batch opt_step s).beta = s.beta
      ∧ (run_update_beta kl s).disc_params = s.disc_params
      ∧ (run_update_beta kl s).beta = update_beta s.beta kl :=
  fun _ _ _ => ⟨rfl, rfl, rfl⟩

/-- C10: under VAIL, feeding `use_noise = 0` makes the sampled latent code
`z` equal `z_mean` exactly, whatever standard-normal noise was drawn, so
the encoder's output is a deterministic function of its inputs and
parameters: two evaluations with identical inputs but arbitrary distinct
noise draws produce identical results. -/
theorem vail_noise_gate_zero :
    ∀ (ua : Bool) (p : EncoderParams) (s a d n1 n2 : List ℝ)
      (r1 r2 : Bool) (z_mean : List ℝ),
      sample_z z_mean p.z_sigma n1 0 = z_mean
      ∧ create_encoder ⟨ua, true⟩ p s a d n1 0 r1
          = create_encoder ⟨ua, true⟩ p s a d n2 0 r2 := by
  intro ua p s a d n1 n2 r1 r2 z_mean
  refine ⟨sample_z_zero _ _ _, ?_⟩
  simp [create_encoder, encoder_on_input, sample_z_zero]

/-- C2: the total loss decomposes into the base adversarial loss
`-mean(log(expert + 1e-7) + log(1 - policy + 1e-7))`, plus
`beta * (KL - 0.5)` exactly when VAIL is enabled, plus
`weight * gradient_penalty` exactly when the weight is strictly positive;
with VAIL off and a non-positive weight the loss is the base loss alone. -/
theorem loss_composition :
    ∀ (use_vail : Bool) (w beta kl gm : ℝ) (ee pe : List ℝ),
      create_loss use_vail w beta kl gm ee pe
        = discriminator_loss ee pe
          + (if use_vail then beta * (kl - 0.5) else 0)
          + (if 0 < w then w * gm else 0)
      ∧ discriminator_loss ee pe
        = -(mean (List.zipWith (fun e q =>
            Real.log (e + 1e-7) + Real.log (1 - q + 1e-7)) ee pe))
      ∧ (use_vail = false → ¬ 0 < w →
          create_loss use_vail w beta kl gm ee pe
            = discriminator_loss ee pe) := by
  intro use_vail w beta kl gm ee pe
  refine ⟨?_, rfl, ?_⟩
  · simp only [create_loss, mutual_information]
    split_ifs <;> ring
  · intro h1 h2
    subst h1
    simp [create_loss, h2]

/-- Witness for `loss_composition` at `use_vail = false`, `w = 0`. -/
theorem loss_composition_witness :
    create_loss false 0 1 0 0 [] [] = discriminator_loss [] [] :=
  (loss_composition false 0 1 0 0 [] []).2.2 rfl (by norm_num)

/-- C7: the KL loss is the batch mean of the negated per-sample sum, over
latent dimensions, of `1 + z_log_sigma_sq - 0.5 * z_mean_expert^2 -
0.5 * z_mean_policy^2 - exp(z_log_sigma_sq)`, combining both streams'
latent means against the shared sigma; with `z_log_sigma_sq` and both
latent means all zero it evaluates to `0`, in particular non-negative. -/
theorem kl_loss_zero_case :
    ∀ b z : ℕ,
      kl_loss (List.replicate z 0) (List.replicate b (List.replicate z 0))
          (List.replicate b (List.replicate z 0)) = 0
      ∧ 0 ≤ kl_loss (List.replicate z 0)
          (List.replicate b (List.replicate z 0))
          (List.replicate b (List.replicate z 0)) := by
  intro b z
  have h : kl_loss (List.replicate z 0)
      (List.replicate b (List.replicate z 0))
      (List.replicate b (List.replicate z 0)) = 0 := by
    simp [kl_loss, mean, Real.exp_zero]
  exact ⟨h, le_of_eq h.symm⟩

/-- C4: the per-sample intrinsic reward is `-log(1 - policy_estimate +
1e-7)`; it is strictly increasing on `[0, 1)`; and on `[0, 1 - ε]` it is
finite, pinched between the explicit bounds `-log(1 + 1e-7)` and
`-log(ε + 1e-7)`. -/
theorem intrinsic_reward_monotone_finite :
    (∀ q : ℝ, intrinsic_reward q = -Real.log (1 - q + 1e-7))
    ∧ (∀ q1 q2 : ℝ, 0 ≤ q1 → q1 < q2 → q2 < 1 →
        intrinsic_reward q1 < intrinsic_reward q2)
    ∧ (∀ ε q : ℝ, 0 < ε → 0 ≤ q → q ≤ 1 - ε →
        -Real.log (1 + EPSILON) ≤ intrinsic_reward q
        ∧ intrinsic_reward q ≤ -Real.log (ε + EPSILON)) := by
  have hE : (0 : ℝ) < EPSILON := by rw [EPSILON]; norm_num
  refine ⟨fun q => rfl, ?_, ?_⟩
  · intro q1 q2 h0 h12 h21
    have hlog : Real.log (1 - q2 + EPSILON) < Real.log (1 - q1 + EPSILON) :=
      Real.log_lt_log (by linarith) (by linarith)
    simp only [intrinsic_reward]
    linarith
  · intro ε q hε h0 h1
    constructor
    · have hlog : Real.log (1 - q + EPSILON) ≤ Real.log (1 + EPSILON) :=
        Real.log_le_log (by linarith) (by linarith)
      simp only [intrinsic_reward]
      linarith
    · have hlog : Real.log (ε + EPSILON) ≤ Real.log (1 - q + EPSILON) :=
        Real.log_le_log (by linarith) (by linarith)
      simp only [intrinsic_reward]
      linarith

/-- Witness for `intrinsic_reward_monotone_finite`: strict monotonicity at
the concrete pair `0 < 1/2`. -/
theorem intrinsic_reward_monotone_finite_witness :
    intrinsic_reward 0 < intrinsic_reward (1 / 2) :=
  intrinsic_reward_monotone_finite.2.1 0 (1 / 2)
    (by norm_num) (by norm_num) (by norm_num)

/-- C6 counterexample: the intrinsic reward is NOT unbounded above as the
policy estimate approaches 1 — the epsilon stabilization caps it: no
estimate in `[0, 1)` pushes the reward beyond the bound `-log(1e-7)`. -/
theorem intrinsic_reward_not_unbounded :
    ¬ ∀ M : ℝ, ∃ q : ℝ, 0 ≤ q ∧ q < 1 ∧ M < intrinsic_reward q := by
  intro h
  obtain ⟨q, _, hq1, hM⟩ := h (-Real.log EPSILON)
  have hE : (0 : ℝ) < EPSILON := by rw [EPSILON]; norm_num
  have hlog : Real.log EPSILON < Real.log (1 - q + EPSILON) :=
    Real.log_lt_log hE (by linarith)
  simp only [intrinsic_reward] at hM
  linarith

/-- C6 (amended): the intrinsic reward is bounded above by the finite cap
`-log(1e-7)` on estimates below 1 and tends to that cap as the estimate
approaches 1; as the estimate approaches 0 it tends to `-log(1 + 1e-7)`,
which is within `1e-7` of 0 but not exactly 0. -/
theorem intrinsic_reward_limits :
    (∀ q : ℝ, q < 1 → intrinsic_reward q < -Real.log EPSILON)
    ∧ Filter.Tendsto intrinsic_reward (nhds 1)
        (nhds (-Real.log EPSILON))
    ∧ Filter.Tendsto intrinsic_reward (nhds 0)
        (nhds (-Real.log (1 + EPSILON)))
    ∧ |(-Real.log (1 + EPSILON))| ≤ EPSILON
    ∧ -Real.log (1 + EPSILON) ≠ 0 := by
  have hE : (0 : ℝ) < EPSILON := by rw [EPSILON]; norm_num
  have hbase : ∀ c : ℝ, ContinuousAt (fun q : ℝ => 1 - q + EPSILON) c :=
    fun c => by fun_prop
  have hlog1 : (0 : ℝ) < Real.log (1 + EPSILON) :=
    Real.log_pos (by linarith)
  refine ⟨?_, ?_, ?_, ?_, ?_⟩
  · intro q hq
    have hlog : Real.log EPSILON < Real.log (1 - q + EPSILON) :=
      Real.log_lt_log hE (by linarith)
    simp only [intrinsic_reward]
    linarith
  · have hc : ContinuousAt (fun q : ℝ => -Real.log (1 - q + EPSILON)) 1 :=
      (ContinuousAt.log (hbase 1)
        (ne_of_gt (show (0 : ℝ) < 1 - 1 + EPSILON by linarith))).neg
    have ht : Filter.Tendsto (fun q : ℝ => -Real.log (1 - q + EPSILON))
        (nhds 1) (nhds (-Real.log (1 - 1 + EPSILON))) := hc.tendsto
    rw [show (1 : ℝ) - 1 + EPSILON = EPSILON by ring] at ht
    exact ht
  · have hc : ContinuousAt (fun q : ℝ => -Real.log (1 - q + EPSILON)) 0 :=
      (ContinuousAt.log (hbase 0)
        (ne_of_gt (show (0 : ℝ) < 1 - 0 + EPSILON by linarith))).neg
    have ht : Filter.Tendsto (fun q : ℝ => -Real.log (1 - q + EPSILON))
        (nhds 0) (nhds (-Real.log (1 - 0 + EPSILON))) := hc.tendsto
    rw [show (1 : ℝ) - 0 + EPSILON = 1 + EPSILON by ring] at ht
    exact ht
  · have hub : Real.log (1 + EPSILON) ≤ EPSILON := by
      have := Real.log_le_sub_one_of_pos (x := 1 + EPSILON) (by linarith)
      linarith
    rw [abs_of_nonpos (by linarith)]
    linarith
  · intro hcontra
    have : Real.log (1 + EPSILON) = 0 := by linarith
    linarith

/-- Witness for `intrinsic_reward_limits`: the cap at estimate `1/2`. -/
theorem intrinsic_reward_limits_witness :
    intrinsic_reward (1 / 2) < -Real.log EPSILON :=
  intrinsic_reward_limits.1 (1 / 2) (by norm_num)

/-- C3 counterexample: the interpolation weights are NOT one-per-sample
broadcast over the feature dimensions.  `tf.random_uniform` is drawn with
the full tensor shape, so with the drawn weights `[0, 1]` on expert `[1, 1]`
versus policy `[0, 0]` the code interpolates to `[0, 1]`, which no single
per-sample weight `a` broadcast across both features can produce. -/
theorem gp_alpha_not_broadcast :
    interp [0, 1] [1, 1] [0, 0] = [0, 1]
    ∧ ¬ ∃ a : ℝ, interp [a, a] [1, 1] [0, 0] = [0, 1] := by
  constructor
  · norm_num [interp]
  · rintro ⟨a, h⟩
    simp [interp] at h
    obtain ⟨h0, h1⟩ := h
    linarith

/-- C3 (amended): the gradient penalty interpolates each expert/policy
tensor pair with an independent weight PER ELEMENT (the weights are drawn
with the full tensor shape), elementwise `a * expert + (1 - a) * policy`;
it runs the interpolated triple through the weight-shared encoder, takes
the gradient of the estimate with respect to the raw concatenated input
via the gradient oracle, and returns the batch mean of
`(sqrt(sum(grad^2) + 1e-7) - 1)^2`. -/
theorem gradient_penalty_spec :
    (∀ (al e q : List ℝ) (i : ℕ),
        i < al.length → i < e.length → i < q.length →
        (interp al e q).getD i 0
          = al.getD i 0 * e.getD i 0 + (1 - al.getD i 0) * q.getD i 0)
    ∧ ∀ (cfg : GAILConfig) (p : EncoderParams)
        (tfg : (List ℝ → ℝ) → List ℝ → List ℝ)
        (noise : List ℝ) (un : ℝ) (batch : List GPSample),
        create_gradient_magnitude cfg p tfg noise un batch
          = mean (batch.map fun s =>
              (Real.sqrt
                (((tfg (fun x => (encoder_on_input cfg p x noise un).1)
                    (if cfg.use_actions
                     then interp s.alpha_state s.encoded_expert
                            s.encoded_policy
                          ++ interp s.alpha_action s.expert_action
                            s.policy_action
                          ++ interp s.alpha_done s.done_expert s.done_policy
                     else interp s.alpha_state s.encoded_expert
                            s.encoded_policy)).map fun g => g ^ 2).sum
                  + 1e-7) - 1) ^ 2) := by
  constructor
  · intro al e q i h1 h2 h3
    have hz : i < (al.zip (e.zip q)).length := by
      simp only [List.length_zip]
      omega
    have hi : i < (interp al e q).length := by
      simpa [interp] using hz
    rw [List.getD_eq_getElem _ _ hi, List.getD_eq_getElem _ _ h1,
      List.getD_eq_getElem _ _ h2, List.getD_eq_getElem _ _ h3]
    simp [interp, List.getElem_zip]
  · intro cfg p tfg noise un batch
    rfl

/-- Witness for `gradient_penalty_spec`: the elementwise interpolation
formula at the concrete index 0 of concrete singleton tensors. -/
theorem gradient_penalty_spec_witness :
    (interp [(1 : ℝ) / 2] [2] [4]).getD 0 0
      = (1 / 2 : ℝ) * 2 + (1 - 1 / 2) * 4 := by
  simpa using gradient_penalty_spec.1 [(1 : ℝ) / 2] [2] [4] 0
    (by norm_num) (by norm_num) (by norm_num)

end

end GAIL
